import Mathlib

/-!
Shallow embedding of the gcpx-testproject provisioning tool (main.go).

Strings are modelled as lists of characters where we quantify over
patterns, and as Lean String where the orchestrator passes identifiers
around.  Machine- and OS-level inputs (the current date, the process
environment) are passed explicitly as an ExpandCtx record, mirroring
time.Now().Format("20060102") and os.Getenv.
-/

namespace GcpxTestProject

/-- Context for name expansion: the formatted current date
(time.Now().Format("20060102")) and the process environment
(os.Getenv, which yields the empty string for an unset variable). -/
structure ExpandCtx where
  today : List Char
  getenv : List Char → List Char

/-- Errors produced by expandProjectName, mirroring the three fmt.Errorf
sites in the source: unclosed substitution, unrecognized expression
(carrying the expression and the whole pattern), and empty expansion. -/
inductive ExpandError where
  | unclosedSubstitution (pattern : List Char)
  | unrecognizedExpression (expr : List Char) (pattern : List Char)
  | emptyExpansion (pattern : List Char)
deriving DecidableEq

/-- Mirror of j := strings.Index(in, "\x7d"); expr := in[:j]; in = in[j+1:]:
split a list at the first closing brace, returning the part before it and
the part after it, or none when no closing brace occurs. -/
def splitAtClose : List Char → Option (List Char × List Char)
  | [] => none
  | c :: rest =>
    if c = '\x7d' then some ([], rest)
    else
      match splitAtClose rest with
      | none => none
      | some (expr, post) => some (c :: expr, post)

/-- Mirror of the switch on expr in expandProjectName: "today" yields the
formatted date, an "env."-prefixed expression yields the value of the
named environment variable (empty when unset), anything else is
unrecognized (none). -/
def evalExpr (ctx : ExpandCtx) (expr : List Char) : Option (List Char) :=
  if expr = "today".toList then some ctx.today
  else if "env.".toList.isPrefixOf expr then some (ctx.getenv (expr.drop 4))
  else none

theorem splitAtClose_length {s expr post : List Char}
    (h : splitAtClose s = some (expr, post)) :
    s.length = expr.length + 1 + post.length := by
  induction s generalizing expr post with
  | nil => simp [splitAtClose] at h
  | cons c rest ih =>
    by_cases hc : c = '\x7d'
    · simp [splitAtClose, hc] at h
      obtain ⟨h1, h2⟩ := h
      subst h1
      subst h2
      simp
      omega
    · simp only [splitAtClose, if_neg hc] at h
      cases hsp : splitAtClose rest with
      | none => simp [hsp] at h
      | some pr =>
        obtain ⟨e, p⟩ := pr
        simp [hsp] at h
        have := ih hsp
        simp [h.1.symm, h.2.symm, this]
        omega

/-- The scanning loop of expandProjectName, operating on the remaining
input.  The Go loop repeatedly takes i := strings.Index(in, "$\x7b"),
copies in[:i] verbatim, locates the first closing brace after the marker,
evaluates the expression between them, and appends the value; here the
leftmost-marker search is realized by walking the input a character at a
time.  The original pattern is carried along only for error messages. -/
def expandFrom (ctx : ExpandCtx) (pattern : List Char) :
    List Char → Except ExpandError (List Char)
  | [] => .ok []
  | '$' :: '\x7b' :: rest =>
    match h : splitAtClose rest with
    | none => .error (.unclosedSubstitution pattern)
    | some (expr, post) =>
      match evalExpr ctx expr with
      | none => .error (.unrecognizedExpression expr pattern)
      | some val =>
        match expandFrom ctx pattern post with
        | .error e => .error e
        | .ok tail => .ok (val ++ tail)
  | c :: rest =>
    match expandFrom ctx pattern rest with
    | .error e => .error e
    | .ok tail => .ok (c :: tail)
termination_by s => s.length
decreasing_by
  · have := splitAtClose_length h
    simp
    omega
  · simp

/-- Mirror of the ASCII fragment of strings.ToLower, applied characterwise.
The source lowercases the expanded name (GCP project IDs must be
lowercase); project identifiers are ASCII, so the ASCII case mapping is
the relevant fragment. -/
def goToLower (s : List Char) : List Char :=
  s.map Char.toLower

/-- Mirror of expandProjectName in main.go: scan the pattern substituting
markers, fail when the result is empty, and lowercase the result. -/
def expandProjectName (ctx : ExpandCtx) (pattern : List Char) :
    Except ExpandError (List Char) :=
  match expandFrom ctx pattern pattern with
  | .error e => .error e
  | .ok s => if s = [] then .error (.emptyExpansion pattern) else .ok (goToLower s)

/-- True when the list contains the two-character marker opener. -/
def containsMarker : List Char → Bool
  | [] => false
  | [_] => false
  | a :: b :: rest => (a = '$' && b = '\x7b') || containsMarker (b :: rest)

/-- Mirror of the loaded Config struct (yaml tags omitted). -/
structure Config where
  namePattern : String
  parent : String
  billingAccount : String
  services : List String
  setupCommands : List String

/-- Mirror of cloudresourcemanager.Project as populated by createProject
and inspected by getProject. -/
structure Project where
  projectId : String
  displayName : String
  parent : String
deriving DecidableEq

/-- Mirror of a long-running operation as the code reads it: its resource
name, its done flag, and an optional terminal error payload. -/
structure Operation where
  name : String
  done : Bool
  opError : Option String
deriving DecidableEq

/-- Mirror of cloudbilling.ProjectBillingInfo restricted to the two fields
the code reads and writes. -/
structure ProjectBillingInfo where
  billingAccountName : String
  billingEnabled : Bool
deriving DecidableEq

/-- Remote API errors.  A googleapi.Error carries an HTTP status code,
which is what isNotFound and isPermissionDenied inspect. -/
inductive ApiError where
  | googleapi (code : Nat) (message : String)
  | other (message : String)
deriving DecidableEq

/-- Mirror of isNotFound in main.go: a googleapi error with HTTP 404. -/
def isNotFound : ApiError → Bool
  | .googleapi code _ => code == 404
  | .other _ => false

/-- Mirror of isPermissionDenied in main.go: a googleapi error with
HTTP 403. -/
def isPermissionDenied : ApiError → Bool
  | .googleapi code _ => code == 403
  | .other _ => false

/-- One remote or local side-effecting request issued by the orchestrator.
Each embedded function returns, next to its result, the list of such
requests it issued, in order. -/
inductive Call where
  | projectsGet (name : String)
  | projectsCreate (project : Project)
  | operationsGet (name : String)
  | getBillingInfo (name : String)
  | updateBillingInfo (name : String) (info : ProjectBillingInfo)
  | batchEnableServices (parent : String) (serviceIds : List String)
  | runCommand (command : String)
deriving DecidableEq

/-- The remote world the orchestrator runs against: the response each
endpoint gives to a request.  operationsGet additionally takes the index
of the poll so a pending operation can complete after a few polls. -/
structure CloudEnv where
  projectsGet : String → Except ApiError Project
  projectsCreate : Project → Except ApiError Operation
  operationsGet : String → Nat → Except ApiError Operation
  getBillingInfo : String → Except ApiError ProjectBillingInfo
  updateBillingInfo : String → ProjectBillingInfo → Except ApiError ProjectBillingInfo
  batchEnableServices : String → List String → Except ApiError Operation
  opWait : Operation → Except ApiError Unit
  runCommand : String → Nat

/-- Errors propagated out of the orchestrator, one per fmt.Errorf wrap
site in the source.  pollFuelExhausted marks the one divergence from the
source: the Go polling loop is unbounded, so the embedding polls under an
explicit fuel and reports exhaustion instead of diverging. -/
inductive RunError where
  | expansionError (e : ExpandError)
  | lookupError (e : ApiError)
  | createError (e : ApiError)
  | operationPollError (e : ApiError)
  | operationFailed (message : String)
  | pollFuelExhausted
  | billingInfoError (project : String) (e : ApiError)
  | billingLinkError (project : String) (account : String) (e : ApiError)
  | serviceEnableStartError (e : ApiError)
  | serviceEnableWaitError (e : ApiError)
  | setupCommandError (command : String) (exitCode : Nat)
deriving DecidableEq

/-- Mirror of getProject in main.go: a not-found or permission-denied
lookup error is reported as the project not existing; any other lookup
error aborts. -/
def getProject (env : CloudEnv) (projectName : String) :
    Except RunError (Option Project) × List Call :=
  let resourceName := "projects/" ++ projectName
  match env.projectsGet resourceName with
  | .ok p => (.ok (some p), [.projectsGet resourceName])
  | .error e =>
    if isNotFound e || isPermissionDenied e then (.ok none, [.projectsGet resourceName])
    else (.error (.lookupError e), [.projectsGet resourceName])

/-- Mirror of the for !op.Done polling loop in createProject: while the
operation is not done, fetch it again by name (the 2-second sleep carries
no logic and is dropped).  fuel bounds the number of polls, standing in
for the unbounded Go loop. -/
def pollLoop (env : CloudEnv) (fuel : Nat) (pollIndex : Nat) (op : Operation) :
    Except RunError Operation × List Call :=
  if op.done then (.ok op, [])
  else
    match fuel with
    | 0 => (.error .pollFuelExhausted, [])
    | fuel' + 1 =>
      match env.operationsGet op.name pollIndex with
      | .error e => (.error (.operationPollError e), [.operationsGet op.name])
      | .ok nextOp =>
        match pollLoop env fuel' (pollIndex + 1) nextOp with
        | (r, t) => (r, .operationsGet op.name :: t)

/-- Mirror of createProject in main.go: issue the creation call, poll the
returned operation until done, then fail with operationFailed when the
terminal operation carries an error payload. -/
def createProject (env : CloudEnv) (config : Config) (fuel : Nat)
    (projectName : String) : Except RunError Unit × List Call :=
  let project : Project :=
    { projectId := projectName, displayName := projectName, parent := config.parent }
  match env.projectsCreate project with
  | .error e => (.error (.createError e), [.projectsCreate project])
  | .ok op =>
    match pollLoop env fuel 0 op with
    | (.error e, t) => (.error e, .projectsCreate project :: t)
    | (.ok finalOp, t) =>
      match finalOp.opError with
      | some msg => (.error (.operationFailed msg), .projectsCreate project :: t)
      | none => (.ok (), .projectsCreate project :: t)

/-- Mirror of EnsureProjectExists in main.go: look the project up and
create it only when the lookup reports it absent. -/
def ensureProjectExists (env : CloudEnv) (config : Config) (fuel : Nat)
    (projectName : String) : Except RunError Unit × List Call :=
  match getProject env projectName with
  | (.error e, t) => (.error e, t)
  | (.ok none, t) =>
    match createProject env config fuel projectName with
    | (r, t2) => (r, t ++ t2)
  | (.ok (some _), t) => (.ok (), t)

/-- Mirror of LinkProjectToBillingAccount in main.go: fetch the current
billing info; when it already names the configured account with billing
enabled, do nothing, otherwise issue the update. -/
def linkProjectToBillingAccount (env : CloudEnv) (config : Config)
    (projectName : String) : Except RunError Unit × List Call :=
  let resourceName := "projects/" ++ projectName
  match env.getBillingInfo resourceName with
  | .error e => (.error (.billingInfoError projectName e), [.getBillingInfo resourceName])
  | .ok current =>
    if current.billingAccountName == config.billingAccount && current.billingEnabled then
      (.ok (), [.getBillingInfo resourceName])
    else
      let info : ProjectBillingInfo :=
        { billingAccountName := config.billingAccount, billingEnabled := true }
      match env.updateBillingInfo resourceName info with
      | .error e =>
        (.error (.billingLinkError projectName config.billingAccount e),
          [.getBillingInfo resourceName, .updateBillingInfo resourceName info])
      | .ok _ =>
        (.ok (), [.getBillingInfo resourceName, .updateBillingInfo resourceName info])

/-- Mirror of EnableProjectServices in main.go: an empty service list
returns immediately; otherwise one batch-enable request is issued and its
operation waited on.  Local client construction carries no logic and is
not modelled. -/
def enableProjectServices (env : CloudEnv) (projectName : String)
    (servicesToEnable : List String) : Except RunError Unit × List Call :=
  if servicesToEnable.isEmpty then (.ok (), [])
  else
    let par := "projects/" ++ projectName
    match env.batchEnableServices par servicesToEnable with
    | .error e =>
      (.error (.serviceEnableStartError e), [.batchEnableServices par servicesToEnable])
    | .ok op =>
      match env.opWait op with
      | .error e =>
        (.error (.serviceEnableWaitError e), [.batchEnableServices par servicesToEnable])
      | .ok _ => (.ok (), [.batchEnableServices par servicesToEnable])

/-- The literal placeholder substituted into setup commands. -/
def placeholderProjectId : String := "$\x7bPROJECT_ID\x7d"

/-- Mirror of strings.ReplaceAll(s, pat, rep) for a non-empty pat: replace
every leftmost non-overlapping occurrence of pat, never rescanning text
produced by a substitution.  (Go additionally inserts rep at every
boundary when pat is empty; the one call site uses the non-empty
placeholder, so that case is left as the identity.) -/
def replaceAll (s pat rep : List Char) : List Char :=
  match s with
  | [] => []
  | c :: rest =>
    if h : pat ≠ [] ∧ pat.isPrefixOf (c :: rest) then
      rep ++ replaceAll ((c :: rest).drop pat.length) pat rep
    else
      c :: replaceAll rest pat rep
termination_by s.length
decreasing_by
  · cases pat with
    | nil => exact absurd rfl h.1
    | cons p ps => simp; omega
  · simp

/-- The expanded form of one setup command: the template with every
occurrence of the literal placeholder replaced by the project name. -/
def expandCommand (command projectName : String) : String :=
  ⟨replaceAll command.toList placeholderProjectId.toList projectName.toList⟩

/-- Mirror of the loop body of RunSetupCommands: substitute the
placeholder, run the command, and stop at the first non-zero exit. -/
def runSetupCommandsFrom (env : CloudEnv) (projectName : String) :
    List String → Except RunError Unit × List Call
  | [] => (.ok (), [])
  | command :: rest =>
    let expandedCommand := expandCommand command projectName
    let exitCode := env.runCommand expandedCommand
    if exitCode = 0 then
      match runSetupCommandsFrom env projectName rest with
      | (r, t) => (r, .runCommand expandedCommand :: t)
    else
      (.error (.setupCommandError expandedCommand exitCode), [.runCommand expandedCommand])

/-- Mirror of RunSetupCommands in main.go.  (The source short-circuits an
empty command list before the loop; the loop on an empty list behaves
identically.) -/
def runSetupCommands (env : CloudEnv) (config : Config) (projectName : String) :
    Except RunError Unit × List Call :=
  runSetupCommandsFrom env projectName config.setupCommands

/-- The fixed service enabled first so billing can be configured. -/
def bootstrapService : String := "cloudbilling.googleapis.com"

/-- Mirror of run in main.go after config loading: expand the project
name, ensure the project exists, enable the bootstrap billing service,
link billing, enable the configured services, then run setup commands,
stopping at the first failing stage. -/
def run (ctx : ExpandCtx) (env : CloudEnv) (config : Config) (fuel : Nat) :
    Except RunError Unit × List Call :=
  match expandProjectName ctx config.namePattern.toList with
  | .error e => (.error (.expansionError e), [])
  | .ok nameChars =>
    let projectName : String := ⟨nameChars⟩
    match ensureProjectExists env config fuel projectName with
    | (.error e, t1) => (.error e, t1)
    | (.ok _, t1) =>
      match enableProjectServices env projectName [bootstrapService] with
      | (.error e, t2) => (.error e, t1 ++ t2)
      | (.ok _, t2) =>
        match linkProjectToBillingAccount env config projectName with
        | (.error e, t3) => (.error e, t1 ++ t2 ++ t3)
        | (.ok _, t3) =>
          match enableProjectServices env projectName config.services with
          | (.error e, t4) => (.error e, t1 ++ t2 ++ t3 ++ t4)
          | (.ok _, t4) =>
            match runSetupCommands env config projectName with
            | (r, t5) => (r, t1 ++ t2 ++ t3 ++ t4 ++ t5)

/-- Calls that change remote or local state, as opposed to pure lookups
(project get, billing-info get, operation get). -/
def isMutatingCall : Call → Bool
  | .projectsCreate _ => true
  | .updateBillingInfo _ _ => true
  | .batchEnableServices _ _ => true
  | .runCommand _ => true
  | _ => false

/-- Project-creation calls. -/
def isCreateCall : Call → Bool
  | .projectsCreate _ => true
  | _ => false

/-- Billing-update calls. -/
def isUpdateBillingCall : Call → Bool
  | .updateBillingInfo _ _ => true
  | _ => false

/-- Calls issued by the ensure-project stage. -/
def isProjectStageCall : Call → Bool
  | .projectsGet _ => true
  | .projectsCreate _ => true
  | .operationsGet _ => true
  | _ => false

/-- Billing-stage calls. -/
def isBillingCall : Call → Bool
  | .getBillingInfo _ => true
  | .updateBillingInfo _ _ => true
  | _ => false

/-- Local setup-command executions. -/
def isRunCommandCall : Call → Bool
  | .runCommand _ => true
  | _ => false

/-- A fixed expansion context for closed evaluations: a fixed date and an
empty process environment. -/
def defaultCtx : ExpandCtx := ⟨"20240101".toList, fun _ => []⟩

/-- Whether a character is an uppercase ASCII letter, by code point. -/
def isUpperAscii (c : Char) : Bool := 65 ≤ c.toNat && c.toNat ≤ 90

theorem splitAtClose_none_of_not_mem {s : List Char} (h : '\x7d' ∉ s) :
    splitAtClose s = none := by
  induction s with
  | nil => rfl
  | cons c rest ih =>
    simp at h
    simp [splitAtClose, Ne.symm h.1, ih h.2]

theorem splitAtClose_append {expr : List Char} (post : List Char)
    (h : '\x7d' ∉ expr) :
    splitAtClose (expr ++ '\x7d' :: post) = some (expr, post) := by
  induction expr with
  | nil => simp [splitAtClose]
  | cons c rest ih =>
    simp at h
    simp [splitAtClose, Ne.symm h.1, ih h.2]

theorem expandFrom_unclosed (ctx : ExpandCtx) (pat rest : List Char)
    (h : splitAtClose rest = none) :
    expandFrom ctx pat ('$' :: '\x7b' :: rest) =
      .error (.unclosedSubstitution pat) := by
  rw [expandFrom.eq_2]
  split <;> simp_all

theorem expandFrom_unrecognized (ctx : ExpandCtx) (pat rest expr post : List Char)
    (h : splitAtClose rest = some (expr, post)) (he : evalExpr ctx expr = none) :
    expandFrom ctx pat ('$' :: '\x7b' :: rest) =
      .error (.unrecognizedExpression expr pat) := by
  rw [expandFrom.eq_2]
  split <;> simp_all

theorem expandFrom_subst (ctx : ExpandCtx) (pat rest expr post val : List Char)
    (h : splitAtClose rest = some (expr, post)) (he : evalExpr ctx expr = some val) :
    expandFrom ctx pat ('$' :: '\x7b' :: rest) =
      Except.map (fun tail => val ++ tail) (expandFrom ctx pat post) := by
  rw [expandFrom.eq_2]
  split
  · simp_all
  · rename_i expr2 post2 heq
    rw [h] at heq
    cases heq
    rw [he]
    cases expandFrom ctx pat post <;> rfl

theorem expandFrom_cons (ctx : ExpandCtx) (pat : List Char) (c : Char)
    (rest : List Char) (h : ¬(c = '$' ∧ rest.head? = some '\x7b')) :
    expandFrom ctx pat (c :: rest) =
      Except.map (fun tail => c :: tail) (expandFrom ctx pat rest) := by
  have hside : ∀ rest2 : List Char, c = '$' → rest = '\x7b' :: rest2 → False := by
    intro rest2 hc hr
    exact h ⟨hc, by rw [hr]; rfl⟩
  rw [expandFrom.eq_3 ctx pat c rest hside]
  cases expandFrom ctx pat rest <;> rfl

theorem containsMarker_cons_false {c : Char} {rest : List Char}
    (h : containsMarker (c :: rest) = false) : containsMarker rest = false := by
  cases rest with
  | nil => rfl
  | cons b rest2 =>
    simp [containsMarker] at h
    exact h.2

theorem expandFrom_copy (ctx : ExpandCtx) (pat : List Char) :
    ∀ pre s, containsMarker pre = false → s.head? ≠ some '\x7b' →
      expandFrom ctx pat (pre ++ s) =
        Except.map (fun tail => pre ++ tail) (expandFrom ctx pat s) := by
  intro pre
  induction pre with
  | nil =>
    intro s _ _
    simp only [List.nil_append]
    cases expandFrom ctx pat s <;> rfl
  | cons c pre2 ih =>
    intro s hm hs
    have hnm : ¬(c = '$' ∧ (pre2 ++ s).head? = some '\x7b') := by
      rintro ⟨hc, hb⟩
      cases pre2 with
      | nil => exact hs hb
      | cons b pre3 =>
        simp at hb
        subst hc
        subst hb
        simp [containsMarker] at hm
    rw [List.cons_append, expandFrom_cons ctx pat c (pre2 ++ s) hnm,
      ih s (containsMarker_cons_false hm) hs]
    cases expandFrom ctx pat s <;> rfl

theorem expandFrom_noMarker (ctx : ExpandCtx) (pat : List Char)
    {p : List Char} (h : containsMarker p = false) :
    expandFrom ctx pat p = .ok p := by
  have hcopy := expandFrom_copy ctx pat p [] h (by simp)
  rw [List.append_nil] at hcopy
  rw [hcopy, expandFrom.eq_1]
  simp [Except.map]

theorem toLower_not_upperAscii (c : Char) :
    isUpperAscii (Char.toLower c) = false := by
  simp only [Char.toLower]
  split
  · rename_i h
    simp only [Bool.and_eq_true, decide_eq_true_eq, ge_iff_le] at h
    obtain ⟨h1, h2⟩ := h
    simp only [isUpperAscii, Bool.and_eq_false_iff, decide_eq_false_iff_not, not_le]
    generalize c.toNat = n at h1 h2
    interval_cases n <;> decide
  · rename_i h
    simp only [Bool.and_eq_true, decide_eq_true_eq, ge_iff_le, not_and, not_le] at h
    simp only [isUpperAscii, Bool.and_eq_false_iff, decide_eq_false_iff_not, not_le]
    omega

/-- C3: name expansion fails with unclosedSubstitution when a marker
opener has no later closing brace; with unrecognizedExpression — naming
the offending expression and the original pattern — when a marker's
expression is neither "today" nor "env."-prefixed; and an unset
environment variable substitutes the empty string without being an error,
so a pattern that is only such a marker fails with emptyExpansion. -/
theorem C3_expansion_error_cases :
    (∀ (ctx : ExpandCtx) (pre rest : List Char), containsMarker pre = false →
      '\x7d' ∉ rest →
      expandProjectName ctx (pre ++ '$' :: '\x7b' :: rest) =
        .error (.unclosedSubstitution (pre ++ '$' :: '\x7b' :: rest))) ∧
    (∀ (ctx : ExpandCtx) (pre expr post : List Char), containsMarker pre = false →
      '\x7d' ∉ expr → expr ≠ "today".toList →
      ¬ ("env.".toList <+: expr) →
      expandProjectName ctx (pre ++ '$' :: '\x7b' :: (expr ++ '\x7d' :: post)) =
        .error (.unrecognizedExpression expr
          (pre ++ '$' :: '\x7b' :: (expr ++ '\x7d' :: post)))) ∧
    (∀ (today : List Char) (genv : List Char → List Char) (nm : List Char),
      '\x7d' ∉ nm → genv nm = [] →
      expandProjectName ⟨today, genv⟩
          ('$' :: '\x7b' :: ("env.".toList ++ nm ++ ['\x7d'])) =
        .error (.emptyExpansion
          ('$' :: '\x7b' :: ("env.".toList ++ nm ++ ['\x7d'])))) := by
  refine ⟨?_, ?_, ?_⟩
  · intro ctx pre rest hm hr
    unfold expandProjectName
    rw [expandFrom_copy ctx _ pre _ hm (by simp),
      expandFrom_unclosed ctx _ rest (splitAtClose_none_of_not_mem hr)]
    rfl
  · intro ctx pre expr post hm he ht hp
    unfold expandProjectName
    have heval : evalExpr ctx expr = none := by
      unfold evalExpr
      rw [if_neg ht, if_neg]
      simpa using hp
    rw [expandFrom_copy ctx _ pre _ hm (by simp),
      expandFrom_unrecognized ctx _ _ expr post (splitAtClose_append post he) heval]
    rfl
  · intro today genv nm hn hg
    unfold expandProjectName
    have hclose : splitAtClose ("env.".toList ++ nm ++ ['\x7d']) =
        some ("env.".toList ++ nm, []) := by
      have : "env.".toList ++ nm ++ ['\x7d'] = ("env.".toList ++ nm) ++ '\x7d' :: [] := by
        simp
      rw [this]
      refine splitAtClose_append [] ?_
      simp [hn]
    have heval : evalExpr ⟨today, genv⟩ ("env.".toList ++ nm) = some (genv nm) := by
      unfold evalExpr
      rw [if_neg, if_pos]
      · have : ("env.".toList ++ nm).drop 4 = nm := by
          have h4 : ("env.".toList : List Char).length = 4 := by decide
          rw [← h4, List.drop_left]
        rw [this]
      · rw [ List.isPrefixOf_iff_prefix]
        exact List.prefix_append _ _
      · intro hcon
        have := List.head_eq_of_cons_eq hcon
        simp at this
    rw [expandFrom_subst _ _ _ _ _ (genv nm) hclose heval, expandFrom.eq_1]
    simp [Except.map, hg]

/-- C3 witness: the three error cases at concrete patterns: an
unterminated marker, an unrecognized expression named together with its
pattern, and a pattern that is only a marker over an unset environment
variable. -/
theorem C3_witness :
    (expandProjectName defaultCtx ("abc-".toList ++ '$' :: '\x7b' :: "unterminated".toList) =
      .error (.unclosedSubstitution ("abc-".toList ++ '$' :: '\x7b' :: "unterminated".toList))) ∧
    (expandProjectName defaultCtx
        ("abc-".toList ++ '$' :: '\x7b' :: ("bogus".toList ++ '\x7d' :: [])) =
      .error (.unrecognizedExpression "bogus".toList
        ("abc-".toList ++ '$' :: '\x7b' :: ("bogus".toList ++ '\x7d' :: [])))) ∧
    (expandProjectName ⟨"20240101".toList, fun _ => []⟩
        ('$' :: '\x7b' :: ("env.".toList ++ "MISSING".toList ++ ['\x7d'])) =
      .error (.emptyExpansion
        ('$' :: '\x7b' :: ("env.".toList ++ "MISSING".toList ++ ['\x7d'])))) :=
  ⟨C3_expansion_error_cases.1 defaultCtx "abc-".toList "unterminated".toList
      (by decide) (by decide),
    C3_expansion_error_cases.2.1 defaultCtx "abc-".toList "bogus".toList []
      (by decide) (by decide) (by decide) (by decide),
    C3_expansion_error_cases.2.2 "20240101".toList (fun _ => []) "MISSING".toList
      (by decide) rfl⟩

/-- C4 counterexample: the empty pattern contains no substitution marker,
yet expansion does not return the lowercased input — it fails with
emptyExpansion. -/
theorem C4_counterexample :
    containsMarker [] = false ∧
    expandProjectName defaultCtx [] ≠ .ok (goToLower []) ∧
    expandProjectName defaultCtx [] = .error (.emptyExpansion []) := by
  have h : expandProjectName defaultCtx [] = .error (.emptyExpansion []) := by
    simp [expandProjectName, expandFrom]
  exact ⟨rfl, by simp [h], h⟩

/-- C4 (amended): for every non-empty pattern containing no substitution
marker, expansion succeeds and returns the lowercased input unchanged. -/
theorem C4_noMarker_lowercased (ctx : ExpandCtx) (p : List Char)
    (hm : containsMarker p = false) (hne : p ≠ []) :
    expandProjectName ctx p = .ok (goToLower p) := by
  unfold expandProjectName
  rw [expandFrom_noMarker ctx p hm]
  simp [hne]

/-- C4 witness: a concrete marker-free pattern expands to its lowercased
self. -/
theorem C4_witness :
    containsMarker "AbC".toList = false ∧ "AbC".toList ≠ [] ∧
    expandProjectName defaultCtx "AbC".toList = .ok (goToLower "AbC".toList) :=
  ⟨by decide, by decide, C4_noMarker_lowercased defaultCtx "AbC".toList (by decide) (by decide)⟩

/-- C5: every successful result of name expansion is a non-empty string
containing no uppercase ASCII letter. -/
theorem C5_expansion_lowercase_nonempty (ctx : ExpandCtx) (p s : List Char)
    (h : expandProjectName ctx p = .ok s) :
    s ≠ [] ∧ ∀ c ∈ s, isUpperAscii c = false := by
  unfold expandProjectName at h
  cases hef : expandFrom ctx p p with
  | error e => rw [hef] at h; cases h
  | ok r =>
    rw [hef] at h
    by_cases hr : r = []
    · simp [hr] at h
    · simp only [if_neg hr, Except.ok.injEq] at h
      subst h
      refine ⟨by simp [goToLower, hr], ?_⟩
      intro c hc
      simp only [goToLower, List.mem_map] at hc
      obtain ⟨a, _, ha⟩ := hc
      rw [← ha]
      exact toLower_not_upperAscii a

/-- C5 witness: a concrete successful expansion, non-empty and free of
uppercase ASCII letters. -/
theorem C5_witness :
    expandProjectName defaultCtx "AbC-7".toList = .ok "abc-7".toList ∧
    ("abc-7".toList ≠ [] ∧ ∀ c ∈ "abc-7".toList, isUpperAscii c = false) := by
  have heval : expandProjectName defaultCtx "AbC-7".toList = .ok "abc-7".toList := by
    simp [expandProjectName, expandFrom, goToLower, Char.toLower]
  exact ⟨heval, C5_expansion_lowercase_nonempty defaultCtx "AbC-7".toList "abc-7".toList heval⟩

/-- C9: enabling an empty service list is a no-op: it succeeds and issues
no batch-enable request (nor any other call). -/
theorem C9_empty_services_noop (env : CloudEnv) (projectName : String) :
    enableProjectServices env projectName [] = (.ok (), []) := by
  simp [enableProjectServices]

theorem replaceAll_not_present {p0 : Char} {ps rep : List Char} :
    ∀ s : List Char, p0 ∉ s → replaceAll s (p0 :: ps) rep = s := by
  intro s
  induction s with
  | nil => intro _; rw [replaceAll]
  | cons c rest ih =>
    intro hmem
    simp at hmem
    have hside : ¬((p0 :: ps) ≠ [] ∧ (p0 :: ps).isPrefixOf (c :: rest)) := by
      rintro ⟨-, hpre⟩
      rw [ List.isPrefixOf_iff_prefix] at hpre
      exact hmem.1 (List.cons_prefix_cons.mp hpre).1
    rw [replaceAll, dif_neg hside, ih hmem.2]

theorem replaceAll_match {pat rep : List Char} (hpat : pat ≠ []) (s : List Char) :
    replaceAll (pat ++ s) pat rep = rep ++ replaceAll s pat rep := by
  cases hp : pat with
  | nil => exact absurd hp hpat
  | cons p0 ps =>
    rw [← hp, hp, List.cons_append, replaceAll, ← List.cons_append, ← hp, dif_pos]
    · rw [List.drop_left]
    · constructor
      · exact hpat
      · rw [ List.isPrefixOf_iff_prefix]
        exact List.prefix_append pat s

theorem replaceAll_skip {p0 : Char} {ps rep : List Char} :
    ∀ a s : List Char, p0 ∉ a →
      replaceAll (a ++ s) (p0 :: ps) rep = a ++ replaceAll s (p0 :: ps) rep := by
  intro a
  induction a with
  | nil => intro s _; rfl
  | cons c a2 ih =>
    intro s hmem
    simp at hmem
    have hside : ¬((p0 :: ps) ≠ [] ∧ (p0 :: ps).isPrefixOf (c :: (a2 ++ s))) := by
      rintro ⟨-, hpre⟩
      rw [ List.isPrefixOf_iff_prefix] at hpre
      exact hmem.1 (List.cons_prefix_cons.mp hpre).1
    rw [List.cons_append, replaceAll, dif_neg hside, ih s hmem.2]
    simp

/-- C10: in setup-command substitution, every occurrence of the literal
placeholder in the template is replaced — not only the first — and the
replacement is done in one pass over the original template: the statement
holds for an arbitrary replacement value, including one containing the
placeholder itself, which is left as-is rather than re-substituted. -/
theorem C10_replace_all_occurrences_once (a b c rep : List Char)
    (ha : '$' ∉ a) (hb : '$' ∉ b) (hc : '$' ∉ c) :
    replaceAll
      (a ++ placeholderProjectId.toList ++ b ++ placeholderProjectId.toList ++ c)
      placeholderProjectId.toList rep = a ++ rep ++ b ++ rep ++ c := by
  have hne : ('$' :: "\x7bPROJECT_ID\x7d".toList) ≠ ([] : List Char) := by simp
  simp only [List.append_assoc]
  rw [show placeholderProjectId.toList = '$' :: "\x7bPROJECT_ID\x7d".toList from rfl,
    replaceAll_skip a _ ha, replaceAll_match hne, replaceAll_skip b _ hb,
    replaceAll_match hne, replaceAll_not_present c hc]

/-- C10 witness: a template with two placeholder occurrences, substituted
with a replacement that is itself the placeholder: both occurrences are
replaced in one pass and the produced text is not re-scanned, so the
result is the original template. -/
theorem C10_witness :
    replaceAll
      ("echo ".toList ++ placeholderProjectId.toList ++ " ".toList ++
        placeholderProjectId.toList ++ [])
      placeholderProjectId.toList placeholderProjectId.toList =
    "echo ".toList ++ placeholderProjectId.toList ++ " ".toList ++
      placeholderProjectId.toList ++ [] :=
  C10_replace_all_occurrences_once "echo ".toList " ".toList []
    placeholderProjectId.toList (by decide) (by decide) (by decide)

theorem runSetupCommandsFrom_mem (env : CloudEnv) (projectName : String) :
    ∀ (cmds : List String) (cmd : String),
      Call.runCommand cmd ∈ (runSetupCommandsFrom env projectName cmds).2 →
      ∃ template ∈ cmds, cmd = expandCommand template projectName := by
  intro cmds
  induction cmds with
  | nil => intro cmd h; simp [runSetupCommandsFrom] at h
  | cons command rest ih =>
    intro cmd h
    by_cases h0 : env.runCommand (expandCommand command projectName) = 0
    · simp only [runSetupCommandsFrom, h0, if_pos] at h
      rcases hrest : runSetupCommandsFrom env projectName rest with ⟨r, t⟩
      rw [hrest] at h
      simp at h
      rcases h with h | h
      · exact ⟨command, by simp, h⟩
      · obtain ⟨tmpl, htm, he⟩ := ih cmd (by rw [hrest]; exact h)
        exact ⟨tmpl, by simp [htm], he⟩
    · simp only [runSetupCommandsFrom, h0, if_neg, if_false] at h
      simp at h
      exact ⟨command, by simp, h⟩

/-- A config whose only content is the spec's example setup command. -/
def echoConfig : Config :=
  { namePattern := "", parent := "", billingAccount := "",
    services := [], setupCommands := ["echo $\x7bPROJECT_ID\x7d"] }

/-- A config with a setup command containing name-expander markers, which
setup-command substitution must pass through untouched. -/
def passthroughConfig : Config :=
  { namePattern := "", parent := "", billingAccount := "",
    services := [], setupCommands := ["echo $\x7btoday\x7d $\x7benv.USER\x7d"] }

/-- C7: every executed setup command is the configured template with the
literal placeholder replaced by the project identifier; no environment or
date substitution is applied.  The second conjunct is the spec's example;
the third shows a name-expander marker in a template passing through
unsubstituted. -/
theorem C7_setup_command_substitution :
    (∀ (env : CloudEnv) (config : Config) (projectName : String) (cmd : String),
      Call.runCommand cmd ∈ (runSetupCommands env config projectName).2 →
      ∃ template ∈ config.setupCommands, cmd = expandCommand template projectName) ∧
    (∀ env : CloudEnv,
      (runSetupCommands env echoConfig "abc-bob-20240101").2 =
      [.runCommand "echo abc-bob-20240101"]) ∧
    (∀ env : CloudEnv,
      (runSetupCommands env passthroughConfig "p").2 =
      [.runCommand "echo $\x7btoday\x7d $\x7benv.USER\x7d"]) := by
  refine ⟨?_, ?_, ?_⟩
  · intro env config projectName cmd h
    exact runSetupCommandsFrom_mem env projectName config.setupCommands cmd h
  · intro env
    by_cases h0 : env.runCommand "echo abc-bob-20240101" = 0 <;>
      simp [runSetupCommands, runSetupCommandsFrom, expandCommand, replaceAll,
        placeholderProjectId, echoConfig, h0]
  · intro env
    by_cases h0 : env.runCommand "echo $\x7btoday\x7d $\x7benv.USER\x7d" = 0 <;>
      simp [runSetupCommands, runSetupCommandsFrom, expandCommand, replaceAll,
        placeholderProjectId, passthroughConfig, h0]

/-- An environment where every setup command exits 0 and every remote
call succeeds against an already-provisioned project named p. -/
def steadyEnv : CloudEnv :=
  { projectsGet := fun _ => .ok { projectId := "p", displayName := "p", parent := "folders/1" }
    projectsCreate := fun _ => .error (.other "unexpected create")
    operationsGet := fun _ _ => .error (.other "unexpected poll")
    getBillingInfo := fun _ => .ok { billingAccountName := "billingAccounts/XYZ", billingEnabled := true }
    updateBillingInfo := fun _ info => .ok info
    batchEnableServices := fun _ _ => .ok { name := "op1", done := true, opError := none }
    opWait := fun _ => .ok ()
    runCommand := fun _ => 0 }

/-- C7 witness: in a concrete trace, the executed command is the template
with the placeholder substituted. -/
theorem C7_witness :
    ∃ template ∈ echoConfig.setupCommands,
      "echo abc-bob-20240101" = expandCommand template "abc-bob-20240101" :=
  C7_setup_command_substitution.1 steadyEnv echoConfig
    "abc-bob-20240101" "echo abc-bob-20240101"
    (by simp [runSetupCommands, runSetupCommandsFrom, expandCommand, replaceAll,
      placeholderProjectId, steadyEnv, echoConfig])

theorem runSetupCommandsFrom_fail (env : CloudEnv) (projectName : String) :
    ∀ (pre : List String) (failing : String) (post : List String),
      (∀ c ∈ pre, env.runCommand (expandCommand c projectName) = 0) →
      env.runCommand (expandCommand failing projectName) ≠ 0 →
      runSetupCommandsFrom env projectName (pre ++ failing :: post) =
        (.error (.setupCommandError (expandCommand failing projectName)
            (env.runCommand (expandCommand failing projectName))),
          (pre ++ [failing]).map (fun c => .runCommand (expandCommand c projectName))) := by
  intro pre
  induction pre with
  | nil =>
    intro failing post _ hfail
    simp [runSetupCommandsFrom, hfail]
  | cons c0 pre2 ih =>
    intro failing post hzero hfail
    have h0 : env.runCommand (expandCommand c0 projectName) = 0 := hzero c0 (by simp)
    have hrec := ih failing post (fun c hc => hzero c (by simp [hc])) hfail
    simp only [List.cons_append, runSetupCommandsFrom, h0, if_pos]
    simp [hrec]

/-- C8: setup commands execute one at a time in declared order; the first
command to exit non-zero aborts with setupCommandError naming the failing
expanded command, and no later command in the list is executed. -/
theorem C8_first_failure_aborts (env : CloudEnv) (config : Config)
    (projectName : String) (pre : List String) (failing : String) (post : List String)
    (hcmds : config.setupCommands = pre ++ failing :: post)
    (hzero : ∀ c ∈ pre, env.runCommand (expandCommand c projectName) = 0)
    (hfail : env.runCommand (expandCommand failing projectName) ≠ 0) :
    runSetupCommands env config projectName =
      (.error (.setupCommandError (expandCommand failing projectName)
          (env.runCommand (expandCommand failing projectName))),
        (pre ++ [failing]).map (fun c => .runCommand (expandCommand c projectName))) := by
  unfold runSetupCommands
  rw [hcmds]
  exact runSetupCommandsFrom_fail env projectName pre failing post hzero hfail

/-- A config with three setup commands whose second fails under failEnv. -/
def threeCommandConfig : Config :=
  { namePattern := "", parent := "", billingAccount := "",
    services := [], setupCommands := ["echo one $\x7bPROJECT_ID\x7d", "boom", "echo three"] }

/-- An environment in which exactly the command boom exits non-zero
(with code 2). -/
def failEnv : CloudEnv :=
  { steadyEnv with runCommand := fun s => if s = "boom" then 2 else 0 }

/-- C8 witness: with three configured commands whose second exits
non-zero, the run fails with setupCommandError naming the failing
expanded command, and the third command is never executed. -/
theorem C8_witness :
    runSetupCommands failEnv threeCommandConfig "p" =
      (.error (.setupCommandError "boom" 2),
        [.runCommand "echo one p", .runCommand "boom"]) := by
  have h := C8_first_failure_aborts failEnv threeCommandConfig "p"
    ["echo one $\x7bPROJECT_ID\x7d"] "boom" ["echo three"] rfl
    (by
      intro c hc
      simp at hc
      subst hc
      simp [expandCommand, replaceAll, placeholderProjectId, failEnv, steadyEnv])
    (by simp [expandCommand, replaceAll, placeholderProjectId, failEnv, steadyEnv])
  simpa [expandCommand, replaceAll, placeholderProjectId, failEnv, steadyEnv] using h

theorem pollLoop_done (env : CloudEnv) (fuel pollIndex : Nat) (op : Operation)
    (h : op.done = true) : pollLoop env fuel pollIndex op = (.ok op, []) := by
  cases fuel <;> simp [pollLoop, h]

theorem pollLoop_trace_ops (env : CloudEnv) :
    ∀ (fuel pollIndex : Nat) (op : Operation) (c : Call),
      c ∈ (pollLoop env fuel pollIndex op).2 → ∃ nm, c = .operationsGet nm := by
  intro fuel
  induction fuel with
  | zero =>
    intro idx op c hc
    cases hd : op.done <;> simp [pollLoop, hd] at hc
  | succ f ih =>
    intro idx op c hc
    cases hd : op.done with
    | true => simp [pollLoop, hd] at hc
    | false =>
      simp only [pollLoop, hd, Bool.false_eq_true, if_false] at hc
      cases hg : env.operationsGet op.name idx with
      | error e =>
        rw [hg] at hc
        simp at hc
        exact ⟨op.name, hc⟩
      | ok nextOp =>
        rw [hg] at hc
        simp at hc
        rcases hc with hc | hc
        · exact ⟨op.name, hc⟩
        · exact ih (idx + 1) nextOp c hc

theorem pollLoop_completes (env : CloudEnv) (nm : String) :
    ∀ (k fuel pollIndex : Nat) (op : Operation), op.name = nm → op.done = false →
      (∀ i, i < k → env.operationsGet nm (pollIndex + i) = .ok ⟨nm, false, none⟩) →
      env.operationsGet nm (pollIndex + k) = .ok ⟨nm, true, none⟩ →
      k < fuel →
      pollLoop env fuel pollIndex op =
        (.ok ⟨nm, true, none⟩, List.replicate (k + 1) (.operationsGet nm)) := by
  intro k
  induction k with
  | zero =>
    intro fuel idx op hnm hnd hpre hdone hfuel
    cases fuel with
    | zero => omega
    | succ f =>
      have hg : env.operationsGet nm idx = .ok ⟨nm, true, none⟩ := by simpa using hdone
      simp [pollLoop, hnd, hnm, hg, pollLoop_done env f (idx + 1) ⟨nm, true, none⟩ rfl]
  | succ k ih =>
    intro fuel idx op hnm hnd hpre hdone hfuel
    cases fuel with
    | zero => omega
    | succ f =>
      have hg : env.operationsGet nm idx = .ok ⟨nm, false, none⟩ := by
        simpa using hpre 0 (by omega)
      have hrec := ih f (idx + 1) ⟨nm, false, none⟩ rfl rfl
        (fun i hi => by
          have hx := hpre (i + 1) (by omega)
          rw [show idx + 1 + i = idx + (i + 1) by omega]
          exact hx)
        (by
          rw [show idx + 1 + k = idx + (k + 1) by omega]
          exact hdone)
        (by omega)
      simp [pollLoop, hnd, hnm, hg, hrec, List.replicate_succ]

theorem createProject_one_create (env : CloudEnv) (config : Config) (fuel : Nat)
    (pn : String) :
    ((createProject env config fuel pn).2.filter isCreateCall).length = 1 := by
  unfold createProject
  cases hc : env.projectsCreate { projectId := pn, displayName := pn, parent := config.parent } with
  | error e => simp only [hc]; simp [isCreateCall]
  | ok op =>
    simp only [hc]
    rcases hp : pollLoop env fuel 0 op with ⟨r, t⟩
    have ht : t.filter isCreateCall = [] := by
      rw [List.filter_eq_nil_iff]
      intro c hc2
      obtain ⟨nm, rfl⟩ := pollLoop_trace_ops env fuel 0 op c (by rw [hp]; exact hc2)
      simp [isCreateCall]
    cases r with
    | error e => simp [ht, isCreateCall]
    | ok finalOp => cases ho : finalOp.opError <;> simp [ho, ht, isCreateCall]

theorem ensure_opfailed (env : CloudEnv) (config : Config) (fuel : Nat)
    (pn : String) (e : ApiError) (op : Operation) (msg : String)
    (hget : env.projectsGet ("projects/" ++ pn) = .error e)
    (hnfpd : (isNotFound e || isPermissionDenied e) = true)
    (hcreate : env.projectsCreate
      { projectId := pn, displayName := pn, parent := config.parent } = .ok op)
    (hdone : op.done = true) (herr : op.opError = some msg) :
    ensureProjectExists env config fuel pn =
      (.error (.operationFailed msg),
        [.projectsGet ("projects/" ++ pn),
          .projectsCreate { projectId := pn, displayName := pn, parent := config.parent }]) := by
  unfold ensureProjectExists getProject createProject
  simp [hget, hnfpd, hcreate, pollLoop_done env fuel 0 op hdone, herr]

/-- C2: when the project lookup reports not-found or permission-denied,
the orchestrator issues exactly one creation call (first conjunct) and
polls the returned operation until its done flag is set (fourth
conjunct); a terminal operation carrying an error payload aborts the run
with operationFailed (third conjunct, stated on run, so the project is
not treated as created); a successful lookup issues no creation call
(second conjunct). -/
theorem C2_create_once_poll_until_done :
    (∀ (env : CloudEnv) (config : Config) (fuel : Nat) (pn : String) (e : ApiError),
      env.projectsGet ("projects/" ++ pn) = .error e →
      (isNotFound e || isPermissionDenied e) = true →
      ((ensureProjectExists env config fuel pn).2.filter isCreateCall).length = 1) ∧
    (∀ (env : CloudEnv) (config : Config) (fuel : Nat) (pn : String) (p : Project),
      env.projectsGet ("projects/" ++ pn) = .ok p →
      ensureProjectExists env config fuel pn =
        (.ok (), [.projectsGet ("projects/" ++ pn)])) ∧
    (∀ (ctx : ExpandCtx) (env : CloudEnv) (config : Config) (fuel : Nat)
      (nameChars : List Char) (e : ApiError) (op : Operation) (msg : String),
      expandProjectName ctx config.namePattern.toList = .ok nameChars →
      env.projectsGet ("projects/" ++ String.mk nameChars) = .error e →
      (isNotFound e || isPermissionDenied e) = true →
      env.projectsCreate { projectId := String.mk nameChars, displayName := String.mk nameChars, parent := config.parent } = .ok op →
      op.done = true → op.opError = some msg →
      (run ctx env config fuel).1 = .error (.operationFailed msg)) ∧
    (∀ (env : CloudEnv) (config : Config) (fuel k : Nat) (pn nm : String)
      (e : ApiError) (op : Operation),
      env.projectsGet ("projects/" ++ pn) = .error e →
      (isNotFound e || isPermissionDenied e) = true →
      env.projectsCreate { projectId := pn, displayName := pn, parent := config.parent } = .ok op →
      op.name = nm → op.done = false →
      (∀ i, i < k → env.operationsGet nm i = .ok ⟨nm, false, none⟩) →
      env.operationsGet nm k = .ok ⟨nm, true, none⟩ →
      k < fuel →
      ensureProjectExists env config fuel pn =
        (.ok (), .projectsGet ("projects/" ++ pn) ::
          .projectsCreate { projectId := pn, displayName := pn, parent := config.parent } ::
          List.replicate (k + 1) (.operationsGet nm))) := by
  refine ⟨?_, ?_, ?_, ?_⟩
  · intro env config fuel pn e hget hnfpd
    have hone := createProject_one_create env config fuel pn
    rcases hc : createProject env config fuel pn with ⟨r, t⟩
    rw [hc] at hone
    simp only at hone
    unfold ensureProjectExists getProject
    simp [hget, hnfpd, hc, List.filter_append, isCreateCall, hone]
  · intro env config fuel pn p hget
    unfold ensureProjectExists getProject
    simp [hget]
  · intro ctx env config fuel nameChars e op msg hname hget hnfpd hcreate hdone herr
    unfold run
    simp only [hname]
    rw [ensure_opfailed env config fuel (String.mk nameChars) e op msg
      hget hnfpd hcreate hdone herr]
  · intro env config fuel k pn nm e op hget hnfpd hcreate hnm hnd hpre hdone hfuel
    unfold ensureProjectExists getProject createProject
    simp [hget, hnfpd, hcreate,
      pollLoop_completes env nm k fuel 0 op hnm hnd (fun i hi => by simpa using hpre i hi)
        (by simpa using hdone) hfuel]

/-- An environment whose project lookup reports 404 and whose creation
operation completes immediately with an error payload. -/
def createFailEnv : CloudEnv :=
  { steadyEnv with
    projectsGet := fun _ => .error (.googleapi 404 "not found")
    projectsCreate := fun _ => .ok { name := "opC", done := true, opError := some "boom" } }

/-- An environment whose project lookup reports 403 and whose creation
operation reports done (successfully) on the second poll. -/
def pollEnv : CloudEnv :=
  { steadyEnv with
    projectsGet := fun _ => .error (.googleapi 403 "denied")
    projectsCreate := fun _ => .ok { name := "opC", done := false, opError := none }
    operationsGet := fun nm i =>
      if i < 1 then .ok { name := nm, done := false, opError := none }
      else .ok { name := nm, done := true, opError := none } }

/-- A minimal config naming project p with no services or commands. -/
def steadyConfig : Config :=
  { namePattern := "p", parent := "folders/1",
    billingAccount := "billingAccounts/XYZ", services := [], setupCommands := [] }

/-- C2 witness: the four conjuncts at concrete environments: one creation
call after a 404 lookup; no creation call after a successful lookup; a
run aborted by operationFailed when the terminal operation carries an
error payload; and polling to completion after a 403 lookup. -/
theorem C2_witness :
    (((ensureProjectExists createFailEnv steadyConfig 5 "p").2.filter isCreateCall).length = 1) ∧
    (ensureProjectExists steadyEnv steadyConfig 5 "p" =
      (.ok (), [.projectsGet "projects/p"])) ∧
    ((run defaultCtx createFailEnv steadyConfig 5).1 = .error (.operationFailed "boom")) ∧
    (ensureProjectExists pollEnv steadyConfig 5 "p" =
      (.ok (), .projectsGet "projects/p" ::
        .projectsCreate { projectId := "p", displayName := "p", parent := "folders/1" } ::
        List.replicate 2 (.operationsGet "opC"))) :=
  ⟨C2_create_once_poll_until_done.1 createFailEnv steadyConfig 5 "p"
      (.googleapi 404 "not found") rfl rfl,
    C2_create_once_poll_until_done.2.1 steadyEnv steadyConfig 5 "p"
      { projectId := "p", displayName := "p", parent := "folders/1" } rfl,
    C2_create_once_poll_until_done.2.2.1 defaultCtx createFailEnv steadyConfig 5
      ['p'] (.googleapi 404 "not found")
      { name := "opC", done := true, opError := some "boom" } "boom"
      (by simp [steadyConfig, expandProjectName, expandFrom, goToLower, Char.toLower])
      rfl rfl rfl rfl rfl,
    C2_create_once_poll_until_done.2.2.2 pollEnv steadyConfig 5 1 "p" "opC"
      (.googleapi 403 "denied") { name := "opC", done := false, opError := none }
      rfl rfl rfl rfl rfl
      (by intro i hi; simp [pollEnv, steadyEnv]; omega)
      (by simp [pollEnv, steadyEnv]) (by omega)⟩

theorem getProject_trace (env : CloudEnv) (pn : String) :
    (getProject env pn).2 = [.projectsGet ("projects/" ++ pn)] := by
  unfold getProject
  cases hg : env.projectsGet ("projects/" ++ pn) with
  | ok p => simp [hg]
  | error e => cases hne : (isNotFound e || isPermissionDenied e) <;> simp [hg, hne]

theorem createProject_trace (env : CloudEnv) (config : Config) (fuel : Nat) (pn : String) :
    ∃ t, (createProject env config fuel pn).2 =
        .projectsCreate { projectId := pn, displayName := pn, parent := config.parent } :: t ∧
      ∀ c ∈ t, ∃ nm, c = .operationsGet nm := by
  unfold createProject
  cases hcr : env.projectsCreate { projectId := pn, displayName := pn, parent := config.parent } with
  | error e => exact ⟨[], by simp [hcr], by simp⟩
  | ok op =>
    simp only [hcr]
    rcases hp : pollLoop env fuel 0 op with ⟨r, t⟩
    refine ⟨t, ?_, ?_⟩
    · cases r with
      | error e => simp
      | ok finalOp => cases ho : finalOp.opError <;> simp [ho]
    · intro c hc
      exact pollLoop_trace_ops env fuel 0 op c (by rw [hp]; exact hc)

theorem ensure_trace_kinds (env : CloudEnv) (config : Config) (fuel : Nat) (pn : String) :
    ∀ c ∈ (ensureProjectExists env config fuel pn).2, isProjectStageCall c = true := by
  intro c hc
  unfold ensureProjectExists at hc
  rcases hg : getProject env pn with ⟨rg, tg⟩
  rw [hg] at hc
  have htg := getProject_trace env pn
  rw [hg] at htg
  simp only at htg
  cases rg with
  | error e =>
    simp at hc
    rw [htg] at hc
    simp at hc
    subst hc
    rfl
  | ok po =>
    cases po with
    | some p =>
      simp at hc
      rw [htg] at hc
      simp at hc
      subst hc
      rfl
    | none =>
      simp at hc
      obtain ⟨t2, ht2, hops⟩ := createProject_trace env config fuel pn
      rw [htg, ht2] at hc
      simp at hc
      rcases hc with hc | hc | hc
      · subst hc; rfl
      · subst hc; rfl
      · obtain ⟨nm, rfl⟩ := hops c hc
        rfl

theorem link_trace (env : CloudEnv) (config : Config) (pn : String) :
    ∃ t, (linkProjectToBillingAccount env config pn).2 =
        .getBillingInfo ("projects/" ++ pn) :: t ∧ ∀ c ∈ t, isBillingCall c = true := by
  unfold linkProjectToBillingAccount
  cases hb : env.getBillingInfo ("projects/" ++ pn) with
  | error e => exact ⟨[], by simp [hb], by simp⟩
  | ok current =>
    cases hcond : (current.billingAccountName == config.billingAccount && current.billingEnabled) with
    | true => exact ⟨[], by simp [hb, hcond], by simp⟩
    | false =>
      cases hu : env.updateBillingInfo ("projects/" ++ pn)
          { billingAccountName := config.billingAccount, billingEnabled := true } with
      | error e =>
        exact ⟨[.updateBillingInfo ("projects/" ++ pn)
            { billingAccountName := config.billingAccount, billingEnabled := true }],
          by simp [hb, hcond, hu], by simp [isBillingCall]⟩
      | ok info =>
        exact ⟨[.updateBillingInfo ("projects/" ++ pn)
            { billingAccountName := config.billingAccount, billingEnabled := true }],
          by simp [hb, hcond, hu], by simp [isBillingCall]⟩

theorem enable_trace (env : CloudEnv) (pn : String) (sids : List String) :
    (enableProjectServices env pn sids).2 =
      if sids.isEmpty then [] else [.batchEnableServices ("projects/" ++ pn) sids] := by
  unfold enableProjectServices
  cases hs : sids.isEmpty with
  | true => simp [hs]
  | false =>
    cases hb : env.batchEnableServices ("projects/" ++ pn) sids with
    | error e => simp [hs, hb]
    | ok op => cases hw : env.opWait op <;> simp [hs, hb, hw]

theorem runSetupCommandsFrom_kinds (env : CloudEnv) (pn : String) :
    ∀ cmds, ∀ c ∈ (runSetupCommandsFrom env pn cmds).2, isRunCommandCall c = true := by
  intro cmds
  induction cmds with
  | nil => intro c hc; simp [runSetupCommandsFrom] at hc
  | cons c0 rest ih =>
    intro c hc
    by_cases h0 : env.runCommand (expandCommand c0 pn) = 0
    · simp only [runSetupCommandsFrom, h0, if_pos] at hc
      rcases hr : runSetupCommandsFrom env pn rest with ⟨r, t⟩
      rw [hr] at hc
      simp at hc
      rcases hc with hc | hc
      · subst hc; rfl
      · exact ih c (by rw [hr]; exact hc)
    · simp [runSetupCommandsFrom, h0] at hc
      subst hc
      rfl

theorem ensure_found (env : CloudEnv) (config : Config) (fuel : Nat) (pn : String)
    (p : Project) (hget : env.projectsGet ("projects/" ++ pn) = .ok p) :
    ensureProjectExists env config fuel pn = (.ok (), [.projectsGet ("projects/" ++ pn)]) := by
  unfold ensureProjectExists getProject
  simp [hget]

theorem enable_ok (env : CloudEnv) (pn : String) (sids : List String) (op : Operation)
    (hb : env.batchEnableServices ("projects/" ++ pn) sids = .ok op)
    (hw : env.opWait op = .ok ()) (hne : sids ≠ []) :
    enableProjectServices env pn sids =
      (.ok (), [.batchEnableServices ("projects/" ++ pn) sids]) := by
  unfold enableProjectServices
  have hs : sids.isEmpty = false := by
    cases sids with
    | nil => exact absurd rfl hne
    | cons a l => rfl
  simp [hs, hb, hw]

theorem link_ok (env : CloudEnv) (config : Config) (pn : String)
    (hb : env.getBillingInfo ("projects/" ++ pn) =
      .ok { billingAccountName := config.billingAccount, billingEnabled := true }) :
    linkProjectToBillingAccount env config pn =
      (.ok (), [.getBillingInfo ("projects/" ++ pn)]) := by
  unfold linkProjectToBillingAccount
  simp [hb]

theorem runSetupCommandsFrom_all_zero (env : CloudEnv) (pn : String)
    (hcmd : ∀ c : String, env.runCommand c = 0) :
    ∀ cmds, runSetupCommandsFrom env pn cmds =
      (.ok (), cmds.map (fun c => .runCommand (expandCommand c pn))) := by
  intro cmds
  induction cmds with
  | nil => rfl
  | cons c0 rest ih => simp [runSetupCommandsFrom, hcmd, ih]

/-- C1 counterexample: against an already-existing, already-linked
project with an empty service list and no setup commands, the run
succeeds but still issues a mutating batch-enable request (for the
bootstrap billing service), so it does not perform only lookups. -/
theorem C1_counterexample :
    (run defaultCtx steadyEnv steadyConfig 0).1 = .ok () ∧
    Call.batchEnableServices "projects/p" [bootstrapService] ∈
      (run defaultCtx steadyEnv steadyConfig 0).2 ∧
    isMutatingCall (Call.batchEnableServices "projects/p" [bootstrapService]) = true := by
  refine ⟨?_, ?_, rfl⟩ <;>
    simp [run, expandProjectName, expandFrom, goToLower, Char.toLower, ensureProjectExists,
      getProject, enableProjectServices, linkProjectToBillingAccount, runSetupCommands,
      runSetupCommandsFrom, steadyEnv, steadyConfig, bootstrapService]

/-- C1 (amended): a run against a project that already exists and is
already linked to the configured billing account (with billing enabled)
performs no project-creation call and no billing-update call and
succeeds; it does, however, re-issue the service batch-enable requests
and re-run the setup commands. -/
theorem C1_no_create_no_billing_update (ctx : ExpandCtx) (env : CloudEnv)
    (config : Config) (fuel : Nat) (nameChars : List Char) (p : Project)
    (hname : expandProjectName ctx config.namePattern.toList = .ok nameChars)
    (hget : env.projectsGet ("projects/" ++ String.mk nameChars) = .ok p)
    (hbill : env.getBillingInfo ("projects/" ++ String.mk nameChars) =
      .ok { billingAccountName := config.billingAccount, billingEnabled := true })
    (henable : ∀ (par : String) (sids : List String), ∃ op,
      env.batchEnableServices par sids = .ok op ∧ env.opWait op = .ok ())
    (hcmd : ∀ c : String, env.runCommand c = 0) :
    (run ctx env config fuel).1 = .ok () ∧
    ∀ c ∈ (run ctx env config fuel).2,
      isCreateCall c = false ∧ isUpdateBillingCall c = false := by
  obtain ⟨op1, hb1, hw1⟩ := henable ("projects/" ++ String.mk nameChars) [bootstrapService]
  have h1 := ensure_found env config fuel (String.mk nameChars) p hget
  have h2 := enable_ok env (String.mk nameChars) [bootstrapService] op1 hb1 hw1 (by simp)
  have h3 := link_ok env config (String.mk nameChars) hbill
  have h5 := runSetupCommandsFrom_all_zero env (String.mk nameChars) hcmd config.setupCommands
  unfold run runSetupCommands
  cases hsvc : config.services with
  | nil =>
    have h4 : enableProjectServices env (String.mk nameChars) [] = (.ok (), []) := by
      simp [enableProjectServices]
    simp only [hname, h1, h2, h3, hsvc, h4, h5]
    refine ⟨by trivial, ?_⟩
    intro c hc
    cases c with
    | projectsCreate proj => simp at hc
    | updateBillingInfo nm info => simp at hc
    | projectsGet nm => exact ⟨rfl, rfl⟩
    | operationsGet nm => exact ⟨rfl, rfl⟩
    | getBillingInfo nm => exact ⟨rfl, rfl⟩
    | batchEnableServices par sids => exact ⟨rfl, rfl⟩
    | runCommand cmd => exact ⟨rfl, rfl⟩
  | cons s0 srest =>
    obtain ⟨op2, hb2, hw2⟩ := henable ("projects/" ++ String.mk nameChars) (s0 :: srest)
    have h4 := enable_ok env (String.mk nameChars) (s0 :: srest) op2 hb2 hw2 (by simp)
    simp only [hname, h1, h2, h3, hsvc, h4, h5]
    refine ⟨by trivial, ?_⟩
    intro c hc
    cases c with
    | projectsCreate proj => simp at hc
    | updateBillingInfo nm info => simp at hc
    | projectsGet nm => exact ⟨rfl, rfl⟩
    | operationsGet nm => exact ⟨rfl, rfl⟩
    | getBillingInfo nm => exact ⟨rfl, rfl⟩
    | batchEnableServices par sids => exact ⟨rfl, rfl⟩
    | runCommand cmd => exact ⟨rfl, rfl⟩

/-- A config for project p with one service and one setup command. -/
def fullConfig : Config :=
  { namePattern := "p", parent := "folders/1", billingAccount := "billingAccounts/XYZ",
    services := ["compute.googleapis.com"], setupCommands := ["echo $\x7bPROJECT_ID\x7d"] }

/-- C1 witness: a concrete already-provisioned run succeeds with no
creation and no billing-update calls. -/
theorem C1_witness :
    (run defaultCtx steadyEnv fullConfig 1).1 = .ok () ∧
    ∀ c ∈ (run defaultCtx steadyEnv fullConfig 1).2,
      isCreateCall c = false ∧ isUpdateBillingCall c = false :=
  C1_no_create_no_billing_update defaultCtx steadyEnv fullConfig 1 ['p']
    { projectId := "p", displayName := "p", parent := "folders/1" }
    (by simp [fullConfig, expandProjectName, expandFrom, goToLower, Char.toLower])
    rfl rfl
    (fun par sids => ⟨{ name := "op1", done := true, opError := none }, rfl, rfl⟩)
    (fun c => rfl)

/-- C6: in every successful run, the bootstrap billing-service enable is
issued before the billing-info fetch (the head of the billing segment);
the batch enable of the configured service list comes after the billing
segment completes; and all setup-command executions come after it. -/
theorem C6_stage_ordering (ctx : ExpandCtx) (env : CloudEnv) (config : Config) (fuel : Nat)
    (hok : (run ctx env config fuel).1 = .ok ()) :
    ∃ (nameChars : List Char) (t1 t3 t5 : List Call),
      expandProjectName ctx config.namePattern.toList = .ok nameChars ∧
      (run ctx env config fuel).2 =
        t1 ++ [.batchEnableServices ("projects/" ++ String.mk nameChars) [bootstrapService]] ++
        (.getBillingInfo ("projects/" ++ String.mk nameChars) :: t3) ++
        (if config.services.isEmpty then []
          else [.batchEnableServices ("projects/" ++ String.mk nameChars) config.services]) ++
        t5 ∧
      (∀ c ∈ t1, isProjectStageCall c = true) ∧
      (∀ c ∈ t3, isBillingCall c = true) ∧
      (∀ c ∈ t5, isRunCommandCall c = true) := by
  unfold run at hok ⊢
  cases hname : expandProjectName ctx config.namePattern.toList with
  | error e =>
    simp only [hname] at hok
    simp at hok
  | ok nameChars =>
    simp only [hname] at hok ⊢
    rcases h1 : ensureProjectExists env config fuel (String.mk nameChars) with ⟨r1, t1v⟩
    rw [h1] at hok
    cases r1 with
    | error e => simp at hok
    | ok u1 =>
      rcases h2 : enableProjectServices env (String.mk nameChars) [bootstrapService]
        with ⟨r2, t2v⟩
      rw [h2] at hok
      cases r2 with
      | error e => simp at hok
      | ok u2 =>
        rcases h3 : linkProjectToBillingAccount env config (String.mk nameChars)
          with ⟨r3, t3v⟩
        rw [h3] at hok
        cases r3 with
        | error e => simp at hok
        | ok u3 =>
          rcases h4 : enableProjectServices env (String.mk nameChars) config.services
            with ⟨r4, t4v⟩
          rw [h4] at hok
          cases r4 with
          | error e => simp at hok
          | ok u4 =>
            rcases h5 : runSetupCommands env config (String.mk nameChars) with ⟨r5, t5v⟩
            have ht2 : t2v = [.batchEnableServices ("projects/" ++ String.mk nameChars)
                [bootstrapService]] := by
              have := enable_trace env (String.mk nameChars) [bootstrapService]
              rw [h2] at this
              simpa using this
            obtain ⟨t3r, ht3, h3kinds⟩ := link_trace env config (String.mk nameChars)
            rw [h3] at ht3
            simp only at ht3
            have ht4 : t4v = if config.services.isEmpty then []
                else [.batchEnableServices ("projects/" ++ String.mk nameChars)
                  config.services] := by
              have := enable_trace env (String.mk nameChars) config.services
              rw [h4] at this
              simpa using this
            refine ⟨nameChars, t1v, t3r, t5v, rfl, ?_, ?_, h3kinds, ?_⟩
            · simp [ht2, ht3, ht4, List.append_assoc]
            · intro c hc
              exact ensure_trace_kinds env config fuel (String.mk nameChars) c
                (by rw [h1]; exact hc)
            · intro c hc
              exact runSetupCommandsFrom_kinds env (String.mk nameChars)
                config.setupCommands c (by
                  have h5b := h5
                  unfold runSetupCommands at h5b
                  rw [h5b]
                  exact hc)

/-- C6 witness: a concrete successful run exhibits the stage ordering. -/
theorem C6_witness :
    ∃ (nameChars : List Char) (t1 t3 t5 : List Call),
      expandProjectName defaultCtx fullConfig.namePattern.toList = .ok nameChars ∧
      (run defaultCtx steadyEnv fullConfig 1).2 =
        t1 ++ [.batchEnableServices ("projects/" ++ String.mk nameChars) [bootstrapService]] ++
        (.getBillingInfo ("projects/" ++ String.mk nameChars) :: t3) ++
        (if fullConfig.services.isEmpty then []
          else [.batchEnableServices ("projects/" ++ String.mk nameChars)
            fullConfig.services]) ++
        t5 ∧
      (∀ c ∈ t1, isProjectStageCall c = true) ∧
      (∀ c ∈ t3, isBillingCall c = true) ∧
      (∀ c ∈ t5, isRunCommandCall c = true) :=
  C6_stage_ordering defaultCtx steadyEnv fullConfig 1
    (by simp [run, expandProjectName, expandFrom, goToLower, Char.toLower,
      ensureProjectExists, getProject, enableProjectServices,
      linkProjectToBillingAccount, runSetupCommands, runSetupCommandsFrom,
      expandCommand, replaceAll, placeholderProjectId, steadyEnv, fullConfig,
      bootstrapService])

end GcpxTestProject
